import Mathlib

/-!
Verification of the college-baseball-tracker repository.

The development shallowly embeds the parts of the system the properties
talk about:

* `Schema` — the canonical store: the tables, unique indexes and foreign
  keys declared by the SQL migrations (`teams`, `players`, `hitting_stats`,
  `pitching_stats`, `users`, `favorites`), together with the persistence
  writer's upsert operations over them.
* `Scraper` — the harvesting pipeline's request handler (retry, terminal
  error short-circuit, per-domain circuit breaker), scheduler (season-epoch
  gating) and name normalization.
* `Api` — the Next.js route handlers `GET /api/players`, `GET /api/teams`
  and `POST /api/favorites`, including the JavaScript numeric coercions
  (`parseInt` returning NaN, NaN-propagating `Math.min`/`Math.max`) the
  handlers rely on.

Machine integers are modelled as `Int`/`Nat`; JavaScript numbers that can
be NaN are modelled by an explicit `JsNum` sum; SQL double-precision
columns only ever get stored and copied here, and are carried as scaled
`Option Int` values (they never enter any computation the claims touch).
-/

namespace Schema

/-- Generic: replace the first element satisfying `p` by `f` of it. -/
def updateFirst (p : α → Bool) (f : α → α) : List α → List α
  | [] => []
  | x :: xs => if p x then f x :: xs else x :: updateFirst p f xs

/-- Generic replace-on-conflict upsert: if a row with the same key as `r`
exists, the first such row is replaced by `r`; otherwise `r` is appended. -/
def upsertByKey [DecidableEq β] (k : α → β) (r : α) (db : List α) : List α :=
  if db.any (fun x => k x = k r) then
    updateFirst (fun x => decide (k x = k r)) (fun _ => r) db
  else db ++ [r]

/-- `hitting_stats` row: columns from the initial migration plus the
`season`, `gidp`, `sh`, `tb` columns the later migration adds.  Double
precision columns (`avg`, `obp`, `slg`, `ops`, `xbh_to_k`) are carried as
`Option Int` numerators scaled by 10^6; they are only stored, never
computed with, in the properties below. -/
structure HittingStat where
  playerId : Nat
  season : Int
  g : Int
  ab : Int
  r : Int
  h : Int
  doubles : Int
  triples : Int
  hr : Int
  rbi : Int
  bb : Int
  k : Int
  sb : Int
  cs : Int
  hbp : Int
  sf : Int
  gidp : Int
  sh : Int
  tb : Option Int
  avg : Option Int
  obp : Option Int
  slg : Option Int
  ops : Option Int
  xbh : Option Int
  xbhToK : Option Int

/-- `pitching_stats` row, with the later migration's added columns. -/
structure PitchingStat where
  playerId : Nat
  season : Int
  app : Int
  gs : Int
  w : Int
  l : Int
  sv : Int
  ip : Int
  h : Int
  r : Int
  er : Int
  bb : Int
  k : Int
  hrAllowed : Int
  cg : Int
  sho : Int
  wp : Int
  bk : Int
  hb : Int
  era : Option Int
  whip : Option Int
  kPer9 : Option Int
  bbPer9 : Option Int
  kToBb : Option Int
  hPer9 : Option Int

/-- `players` row: `ncaa_id` is nullable, the name/team columns are the
upsert key material, the rest are payload. -/
structure Player where
  id : Nat
  ncaaId : Option Nat
  firstName : String
  lastName : String
  position : Option String
  classYear : Option String
  teamId : Nat
  inPortal : Bool
  deriving DecidableEq

/-- `teams` row (the columns the claims touch). -/
structure Team where
  id : Nat
  ncaaId : Nat
  name : String
  conference : String
  deriving DecidableEq

/-- Modelled from the spec: the Persistence Writer's "replace-on-conflict"
stat write (the writer itself is not in the tree).  The conflict target is
taken from the schema in the tree: the unique index
`hitting_stats_player_id_key` is on `player_id` alone, so that is the key
the database can detect a conflict on. -/
def upsertHitting (r : HittingStat) (db : List HittingStat) : List HittingStat :=
  upsertByKey HittingStat.playerId r db

/-- Modelled from the spec: as `upsertHitting`, with the conflict target
`pitching_stats_player_id_key`, again on `player_id` alone. -/
def upsertPitching (r : PitchingStat) (db : List PitchingStat) : List PitchingStat :=
  upsertByKey PitchingStat.playerId r db

/-- At most one `hitting_stats` row per player: what the unique index
`hitting_stats_player_id_key` enforces. -/
def AtMostOneHittingPerPlayer (db : List HittingStat) : Prop :=
  db.Pairwise (fun a b => a.playerId ≠ b.playerId)

/-- At most one `pitching_stats` row per player
(`pitching_stats_player_id_key`). -/
def AtMostOnePitchingPerPlayer (db : List PitchingStat) : Prop :=
  db.Pairwise (fun a b => a.playerId ≠ b.playerId)

/-- The canonical store: the tables the stat foreign keys
(`hitting_stats_player_id_fkey`, `pitching_stats_player_id_fkey`,
`players_team_id_fkey`) relate. -/
structure Db where
  teams : List Team
  players : List Player
  hitting : List HittingStat
  pitching : List PitchingStat

/-- The empty store. -/
def Db.empty : Db := ⟨[], [], [], []⟩

/-- The write operations the schema admits against these tables. -/
inductive DbOp where
  | insertTeam (t : Team)
  | deleteTeam (id : Nat)
  | insertPlayer (p : Player)
  | deletePlayer (id : Nat)
  | writeHitting (r : HittingStat)
  | writePitching (r : PitchingStat)

/-- One schema-level write.  Foreign keys are checked as the DDL declares
them (`... REFERENCES players("id")`, `... REFERENCES teams("id")`): a
write whose reference does not resolve is rejected with an error and the
transaction leaves no state.  Deletes cascade exactly as the
`ON DELETE CASCADE` clauses say: deleting a player removes that player's
stat rows, deleting a team removes its players and, transitively, their
stat rows. -/
def applyOp (db : Db) : DbOp → Except String Db
  | .insertTeam t => .ok { db with teams := db.teams ++ [t] }
  | .deleteTeam tid =>
      let removed := db.players.filter (fun p => p.teamId == tid)
      .ok { teams := db.teams.filter (fun t => t.id != tid),
            players := db.players.filter (fun p => p.teamId != tid),
            hitting := db.hitting.filter
              (fun s => !(removed.any (fun p => p.id == s.playerId))),
            pitching := db.pitching.filter
              (fun s => !(removed.any (fun p => p.id == s.playerId))) }
  | .insertPlayer p =>
      if db.teams.any (fun t => t.id == p.teamId) then
        .ok { db with players := db.players ++ [p] }
      else .error "players_team_id_fkey"
  | .deletePlayer pid =>
      .ok { db with
            players := db.players.filter (fun p => p.id != pid),
            hitting := db.hitting.filter (fun s => s.playerId != pid),
            pitching := db.pitching.filter (fun s => s.playerId != pid) }
  | .writeHitting r =>
      if db.players.any (fun p => p.id == r.playerId) then
        .ok { db with hitting := upsertHitting r db.hitting }
      else .error "hitting_stats_player_id_fkey"
  | .writePitching r =>
      if db.players.any (fun p => p.id == r.playerId) then
        .ok { db with pitching := upsertPitching r db.pitching }
      else .error "pitching_stats_player_id_fkey"

/-- States reachable from the empty store by schema-level writes. -/
inductive Reachable : Db → Prop where
  | empty : Reachable Db.empty
  | step {db db' : Db} (op : DbOp) :
      Reachable db → applyOp db op = .ok db' → Reachable db'

/-- Every stat row's `player_id` resolves to a `players` row. -/
def StatLinksResolve (db : Db) : Prop :=
  (∀ s ∈ db.hitting, ∃ p ∈ db.players, p.id = s.playerId) ∧
  (∀ s ∈ db.pitching, ∃ p ∈ db.players, p.id = s.playerId)

/-- The data a scrape produces for one player, before the writer assigns a
row id: the nullable stable external identifier and the columns of the
`players` table. -/
structure PlayerInput where
  ncaaId : Option Nat
  firstName : String
  lastName : String
  position : Option String
  classYear : Option String
  teamId : Nat
  inPortal : Bool

/-- The row an input materializes as, under a given row id. -/
def PlayerInput.toRow (inp : PlayerInput) (id : Nat) : Player :=
  { id := id, ncaaId := inp.ncaaId, firstName := inp.firstName,
    lastName := inp.lastName, position := inp.position,
    classYear := inp.classYear, teamId := inp.teamId,
    inPortal := inp.inPortal }

/-- The composite upsert key for players without a stable external
identifier: team plus normalized first/last name. -/
def Player.nameKey (p : Player) : Nat × String × String :=
  (p.teamId, p.firstName, p.lastName)

/-- Name key of an input. -/
def PlayerInput.nameKey (inp : PlayerInput) : Nat × String × String :=
  (inp.teamId, inp.firstName, inp.lastName)

/-- Modelled from the spec: the Persistence Writer's player upsert (the
writer itself is not in the tree).  "Upserts a player by stable external
identifier when available, otherwise by a (team, normalized-name)
composite key": with an external identifier the row carrying that
identifier is updated in place (matching `players_ncaa_id_key`) or a new
row is created; without one, the row is looked up by the composite
(team, first, last) key among rows that themselves carry no external
identifier, and updated in place or created.  `fresh` is the row id the
store would assign to a created row. -/
def upsertPlayer (inp : PlayerInput) (fresh : Nat) (db : List Player) :
    List Player :=
  match inp.ncaaId with
  | some n =>
      if db.any (fun p => decide (p.ncaaId = some n)) then
        updateFirst (fun p => decide (p.ncaaId = some n))
          (fun p => inp.toRow p.id) db
      else db ++ [inp.toRow fresh]
  | none =>
      if db.any (fun p => decide (p.ncaaId = none) &&
          decide (p.nameKey = inp.nameKey)) then
        updateFirst (fun p => decide (p.ncaaId = none) &&
            decide (p.nameKey = inp.nameKey))
          (fun p => inp.toRow p.id) db
      else db ++ [inp.toRow fresh]

/-- Player tables reachable by running the writer's upsert from empty. -/
inductive ReachablePlayers : List Player → Prop where
  | empty : ReachablePlayers []
  | step {db : List Player} (inp : PlayerInput) (fresh : Nat) :
      ReachablePlayers db → ReachablePlayers (upsertPlayer inp fresh db)

/-- The keying discipline the claim states: distinct rows never share a
non-null external identifier, and distinct rows both lacking one never
share the composite (team, name) key. -/
def PlayerKeysUnique (db : List Player) : Prop :=
  db.Pairwise (fun x y =>
    (∀ n : Nat, x.ncaaId = some n → y.ncaaId ≠ some n) ∧
    (x.ncaaId = none → y.ncaaId = none → x.nameKey ≠ y.nameKey))

end Schema

namespace Sorting

/-- Insert `x` into `l` before the first element it is `le`-below. -/
def insertLe (le : α → α → Bool) (x : α) : List α → List α
  | [] => [x]
  | y :: ys => if le x y then x :: y :: ys else y :: insertLe le x ys

/-- Stable insertion sort by a Bool comparator (the embedding of the
store's ordered query results). -/
def sortLe (le : α → α → Bool) : List α → List α
  | [] => []
  | x :: xs => insertLe le x (sortLe le xs)

end Sorting

namespace Scraper

/-!
The harvesting pipeline is described by the specification but its code is
not in the tree; every definition in this namespace is modelled from the
spec, as its doc comment states.  Time is an injectable `Nat` timestamp,
as the spec's design notes require.
-/

/-- Modelled from the spec: the terminal error kinds of a `FetchResult`
(timeout, connection-refused, dns-failure, tls-certificate-error,
dead-end-redirect) plus the retried 5xx responses from the error
taxonomy. -/
inductive ErrKind where
  | timeout
  | http5xx
  | connectionRefused
  | dnsFailure
  | tlsCertError
  | deadEndRedirect
  deriving DecidableEq

/-- Modelled from the spec: `NetworkTransient` is timeout and 5xx; every
other kind is not retried. -/
def ErrKind.isTransient : ErrKind → Bool
  | .timeout => true
  | .http5xx => true
  | _ => false

/-- Circuit-breaker state for one domain: Closed / Open / HalfOpen. -/
inductive BreakerSt where
  | closed
  | opened
  | halfOpen
  deriving DecidableEq

/-- Modelled from the spec: per-domain circuit-breaker record —
state, consecutive-transient-failure count, cooldown-expiry timestamp. -/
structure Breaker where
  st : BreakerSt
  failCount : Nat
  cooldownExpiry : Nat
  deriving DecidableEq

/-- A domain's breaker before any traffic. -/
def Breaker.fresh : Breaker := ⟨.closed, 0, 0⟩

/-- Breaker configuration: failure threshold and cooldown duration. -/
structure BreakerConfig where
  threshold : Nat
  cooldown : Nat

/-- Modelled from the spec: the gate consulted before any network I/O.
While the circuit is Open and the cooldown has not expired the call is
denied (`none`, producing `CircuitOpen` with no I/O); once the cooldown
has elapsed the breaker moves to HalfOpen and the one probing call is
allowed through; Closed and HalfOpen allow the call. -/
def Breaker.gate (now : Nat) (b : Breaker) : Option Breaker :=
  match b.st with
  | .opened =>
      if now < b.cooldownExpiry then none
      else some { b with st := .halfOpen }
  | _ => some b

/-- Modelled from the spec: any successful response from the domain
resets its breaker to Closed. -/
def Breaker.onSuccess (_b : Breaker) : Breaker := ⟨.closed, 0, 0⟩

/-- Modelled from the spec: a transient failure increments the
consecutive-failure count; crossing the threshold (or failing the
HalfOpen probe) opens the circuit for one cooldown window from now. -/
def Breaker.onTransient (cfg : BreakerConfig) (now : Nat) (b : Breaker) :
    Breaker :=
  let c := b.failCount + 1
  if cfg.threshold ≤ c || b.st == .halfOpen then
    ⟨.opened, c, now + cfg.cooldown⟩
  else
    ⟨.closed, c, b.cooldownExpiry⟩

/-- What the network would answer one attempt with. -/
inductive Outcome where
  | success
  | failure (e : ErrKind)

/-- Result of one `fetch(url)` call. -/
inductive FetchResult where
  | ok
  | circuitOpen
  | failed (e : ErrKind)
  deriving DecidableEq

/-- Modelled from the spec: the retry loop inside one fetch call.  `net`
answers the i-th network attempt, `retriesLeft` bounds the retries.
A success resets the breaker; a transient failure feeds the breaker and
is retried while retries remain; a terminal error kind is returned
immediately with no further attempt and no breaker mutation.  Returns
the result, the number of network attempts performed, and the breaker. -/
def runAttempts (cfg : BreakerConfig) (now : Nat) (net : Nat → Outcome) :
    Nat → Nat → Breaker → FetchResult × Nat × Breaker
  | i, 0, b =>
    match net i with
    | .success => (.ok, 1, b.onSuccess)
    | .failure e =>
        if e.isTransient then (.failed e, 1, b.onTransient cfg now)
        else (.failed e, 1, b)
  | i, rl + 1, b =>
    match net i with
    | .success => (.ok, 1, b.onSuccess)
    | .failure e =>
        if e.isTransient then
          let r := runAttempts cfg now net (i + 1) rl
            (b.onTransient cfg now)
          (r.1, r.2.1 + 1, r.2.2)
        else (.failed e, 1, b)

/-- Modelled from the spec: `fetch(url)` for one domain — the circuit
gate first (denial performs no I/O), then the retried attempt loop. -/
def fetch (cfg : BreakerConfig) (retryMax : Nat) (now : Nat)
    (net : Nat → Outcome) (b : Breaker) : FetchResult × Nat × Breaker :=
  match b.gate now with
  | none => (.circuitOpen, 0, b)
  | some b1 => runAttempts cfg now net 0 retryMax b1

/-- Modelled from the spec: a Source Registry entry's scheduling fields —
source id, base domain, last-success timestamp, consecutive-failure
count. -/
structure Source where
  id : Nat
  domain : String
  lastSuccess : Option Nat
  failCount : Nat

/-- Modelled from the spec: a source counts as already scraped this
season epoch when its last success is at or after the season-start
gate date. -/
def inCurrentEpoch (seasonStart : Nat) (s : Source) : Bool :=
  match s.lastSuccess with
  | some t => seasonStart ≤ t
  | none => false

/-- Ordering key: never-scraped sources first, then by staleness
(oldest last-success first). -/
def Source.orderKey (s : Source) : Nat :=
  match s.lastSuccess with
  | none => 0
  | some t => t + 1

/-- Modelled from the spec: the Scheduler's selection — skip sources
already successfully scraped within the current season epoch unless the
override is set, order never-scraped first then oldest last-success
first, and cap the run. -/
def selectDue (seasonStart : Nat) (cap : Nat) (force : Bool)
    (registry : List Source) : List Source :=
  let candidates :=
    if force then registry
    else registry.filter (fun s => !(inCurrentEpoch seasonStart s))
  let ordered := Sorting.sortLe
    (fun a b => a.orderKey ≤ b.orderKey) candidates
  ordered.take cap

/-- Strip the ASCII spaces at both ends. -/
def trimChars (l : List Char) : List Char :=
  ((l.dropWhile (fun c => c == ' ')).reverse.dropWhile
    (fun c => c == ' ')).reverse

/-- Split at the first occurrence of `c`, which is dropped; `none` when
`c` does not occur. -/
def splitAtFirst (c : Char) : List Char → Option (List Char × List Char)
  | [] => none
  | x :: xs =>
      if x == c then some ([], xs)
      else
        match splitAtFirst c xs with
        | some (a, b) => some (x :: a, b)
        | none => none

/-- Modelled from the spec: the parsers' shared name normalization —
a name containing a comma is in "Last, First" order and is flipped into
first/last fields; otherwise the text before the first space is the
first name and the rest the last name. -/
def normalizeNameChars (l : List Char) : List Char × List Char :=
  match splitAtFirst ',' l with
  | some (lastPart, firstPart) => (trimChars firstPart, trimChars lastPart)
  | none =>
      match splitAtFirst ' ' (trimChars l) with
      | some (firstPart, rest) => (firstPart, trimChars rest)
      | none => (trimChars l, [])

/-- `normalizeNameChars` on strings. -/
def normalizeName (s : String) : String × String :=
  ((normalizeNameChars s.toList).1.asString,
   (normalizeNameChars s.toList).2.asString)

end Scraper

namespace Api

/-!
The Next.js route handlers, embedded with the JavaScript numeric
semantics they rely on: `parseInt` yields NaN on non-numeric input, and
NaN propagates through `Math.min`/`Math.max` and arithmetic.  A value of
the Prisma query layer that receives NaN for `skip`/`take` raises a
validation error, which the route's `catch` turns into a 500 response.

Double-precision stat thresholds (`minAvg`, `maxEra`, …) are carried as
already-parsed scaled integers: their parsing happens before the `try`
block, never fails the request, and is independent of the pagination and
division behavior under study.
-/

/-- A JavaScript number that is either an integer or NaN (every number
the handlers compute with here is integral when it is not NaN). -/
inductive JsNum where
  | num (n : Int)
  | nan
  deriving DecidableEq

/-- `Math.max`: NaN-propagating. -/
def jsMax (a b : JsNum) : JsNum :=
  match a, b with
  | .num x, .num y => .num (max x y)
  | _, _ => .nan

/-- `Math.min`: NaN-propagating. -/
def jsMin (a b : JsNum) : JsNum :=
  match a, b with
  | .num x, .num y => .num (min x y)
  | _, _ => .nan

/-- Subtraction: NaN-propagating. -/
def jsSub (a : JsNum) (k : Int) : JsNum :=
  match a with
  | .num x => .num (x - k)
  | .nan => .nan

/-- Multiplication: NaN-propagating. -/
def jsMul (a b : JsNum) : JsNum :=
  match a, b with
  | .num x, .num y => .num (x * y)
  | _, _ => .nan

/-- JavaScript `parseInt(s)` (radix 10): skip leading spaces, optional
sign, then leading decimal digits; NaN when no digit follows. -/
def jsParseInt (s : String) : JsNum :=
  let l := s.toList.dropWhile (fun c => c == ' ')
  let signAndRest : Int × List Char :=
    match l with
    | '-' :: rest => (-1, rest)
    | '+' :: rest => (1, rest)
    | _ => (1, l)
  let digits := signAndRest.2.takeWhile Char.isDigit
  if digits.isEmpty then .nan
  else
    .num (signAndRest.1 *
      Int.ofNat (digits.foldl (fun acc c => acc * 10 + (c.toNat - 48)) 0))

/-- `v || d` for an optional string parameter: absent and `""` are falsy
and give the default. -/
def jsOrDefault (v : Option String) (d : String) : String :=
  match v with
  | none => d
  | some s => if s = "" then d else s

/-- `Math.max(1, parseInt(params.get("page") || "1"))`. -/
def pageOf (raw : Option String) : JsNum :=
  jsMax (.num 1) (jsParseInt (jsOrDefault raw "1"))

/-- `Math.min(100, Math.max(1, parseInt(params.get("limit") || "50")))`. -/
def limitOf (raw : Option String) : JsNum :=
  jsMin (.num 100) (jsMax (.num 1) (jsParseInt (jsOrDefault raw "50")))

/-- `(page - 1) * limit`. -/
def offsetOf (page limit : JsNum) : JsNum := jsMul (jsSub page 1) limit

/-- `VALID_DIVISIONS` from both route files. -/
def VALID_DIVISIONS : List String := ["D1", "D2", "D3"]

/-- `divisionRaw && VALID_DIVISIONS.includes(divisionRaw) ? divisionRaw
: undefined` — the empty string is falsy, anything not in the list is
dropped. -/
def parseDivision (raw : Option String) : Option String :=
  match raw with
  | none => none
  | some s => if s != "" && VALID_DIVISIONS.contains s then some s else none

/-- Bool list equality test at the front. -/
def seqStarts : List Char → List Char → Bool
  | [], _ => true
  | _ :: _, [] => false
  | x :: xs, y :: ys => x == y && seqStarts xs ys

/-- Bool contiguous containment test. -/
def seqInside (needle : List Char) : List Char → Bool
  | [] => needle.isEmpty
  | y :: ys => seqStarts needle (y :: ys) || seqInside needle ys

/-- Prisma `contains` with `mode: "insensitive"`. -/
def containsCI (hay needle : String) : Bool :=
  seqInside needle.toLower.toList hay.toLower.toList

/-- A `players` row as `GET /api/players` queries it: the scalar columns
it filters and sorts on, plus the joined nullable `hittingStats` and
`pitchingStats` relations and the selected team columns. -/
structure ApiPlayer where
  id : Nat
  firstName : String
  lastName : String
  position : Option String
  teamId : Nat
  teamName : String
  teamDivision : String
  teamConference : String
  inPortal : Bool
  hitting : Option Schema.HittingStat
  pitching : Option Schema.PitchingStat

/-- The raw query parameters of `GET /api/players` (strings as they sit
in the URL), with the double-precision thresholds already parsed into
scaled integers (see the namespace comment). -/
structure PlayersQuery where
  page : Option String
  limit : Option String
  search : Option String
  division : Option String
  position : Option String
  conference : Option String
  teamId : Option String
  inPortal : Option String
  statType : Option String
  sortBy : Option String
  sortDir : Option String
  minAvg : Option Int
  maxEra : Option Int
  minKPer9 : Option Int
  minOps : Option Int
  minHR : Option Int
  maxBB9 : Option Int
  minXbhToK : Option Int

/-- A query with every parameter absent. -/
def PlayersQuery.empty : PlayersQuery :=
  ⟨none, none, none, none, none, none, none, none, none, none, none,
   none, none, none, none, none, none, none⟩

/-- `params.get("search")?.trim()` followed by the `if (search)`
truthiness test. -/
def effectiveSearch (raw : Option String) : Option String :=
  match raw with
  | none => none
  | some s => let t := s.trim; if t = "" then none else some t

/-- `params.get("teamId") ? parseInt(params.get("teamId")) : undefined`,
together with the later `if (teamId)` truthiness test (0 and NaN are
falsy). -/
def effectiveTeamId (raw : Option String) : Option Int :=
  match raw with
  | none => none
  | some s =>
      if s = "" then none
      else
        match jsParseInt s with
        | .num t => if t = 0 then none else some t
        | .nan => none

/-- An optional threshold filter over an optionally-null column: Prisma
`gte` matches only rows where the column is non-null and at least the
bound. -/
def gteOpt (bound : Option Int) (column : Option Int) : Bool :=
  match bound with
  | none => true
  | some b =>
      match column with
      | some v => b ≤ v
      | none => false

/-- Prisma `lte`, as `gteOpt`. -/
def lteOpt (bound : Option Int) (column : Option Int) : Bool :=
  match bound with
  | none => true
  | some b =>
      match column with
      | some v => v ≤ b
      | none => false

/-- The `where` clause of `GET /api/players` as a row predicate, built
exactly as the route builds it: each `if` in the route contributes its
conjunct only when its parameter survives the route's own
truthiness/validity test. -/
def playersWhere (q : PlayersQuery) (p : ApiPlayer) : Bool :=
  (match effectiveSearch q.search with
   | none => true
   | some s =>
       containsCI p.firstName s || containsCI p.lastName s ||
       containsCI p.teamName s) &&
  (match parseDivision q.division with
   | none => true
   | some d => p.teamDivision == d) &&
  (match q.conference with
   | none => true
   | some c => if c = "" then true else p.teamConference == c) &&
  (match effectiveTeamId q.teamId with
   | none => true
   | some t => Int.ofNat p.teamId == t) &&
  (match q.position with
   | none => true
   | some pos =>
       if pos = "" then true
       else match p.position with
            | some pp => pp == pos
            | none => false) &&
  (if q.inPortal == some "true" then p.inPortal else true) &&
  (gteOpt q.minAvg ((p.hitting).bind (fun h => h.avg))) &&
  (gteOpt q.minOps ((p.hitting).bind (fun h => h.ops))) &&
  (gteOpt q.minHR ((p.hitting).map (fun h => h.hr))) &&
  (gteOpt q.minXbhToK ((p.hitting).bind (fun h => h.xbhToK))) &&
  (lteOpt q.maxEra ((p.pitching).bind (fun h => h.era))) &&
  (gteOpt q.minKPer9 ((p.pitching).bind (fun h => h.kPer9))) &&
  (lteOpt q.maxBB9 ((p.pitching).bind (fun h => h.bbPer9))) &&
  (if q.statType == some "hitting" then (p.hitting).isSome else true) &&
  (if q.statType == some "pitching" then (p.pitching).isSome else true)

/-- The orderBy comparator Prisma accepts for `{ [sortBy]: dir }` on the
fields this row carries; an unknown field name makes the query invalid
(`none`), which the route's `catch` maps to a 500. -/
def sortComparator (field : String) :
    Option (ApiPlayer → ApiPlayer → Bool) :=
  if field = "id" then some (fun a b => a.id ≤ b.id)
  else if field = "firstName" then
    some (fun a b => !(b.firstName < a.firstName))
  else if field = "lastName" then
    some (fun a b => !(b.lastName < a.lastName))
  else if field = "teamId" then some (fun a b => a.teamId ≤ b.teamId)
  else none

/-- The successful response body of `GET /api/players`. -/
structure PlayersOk where
  players : List ApiPlayer
  page : Int
  limit : Int
  total : Nat
  totalPages : Nat

/-- `GET /api/players`: parse page/limit with the JavaScript coercions,
build the `where` filter, sort, then `skip := (page-1)*limit` and
`take := limit`; a NaN or negative `skip`/`take` (NaN exactly when page
or limit is NaN, `offsetOf` below) is rejected by the query layer and
surfaces as the catch-all 500 (`Except.error`). -/
def getPlayers (db : List ApiPlayer) (q : PlayersQuery) :
    Except Unit PlayersOk :=
  let page := pageOf q.page
  let limit := limitOf q.limit
  let sortBy := jsOrDefault q.sortBy "lastName"
  let filtered := db.filter (playersWhere q)
  match sortComparator sortBy with
  | none => .error ()
  | some cmp =>
      let le := if q.sortDir == some "desc" then fun a b => cmp b a else cmp
      let sorted := Sorting.sortLe le filtered
      match page, limit with
      | .num p, .num l =>
          if 0 ≤ (p - 1) * l ∧ 0 ≤ l then
            .ok { players := (sorted.drop ((p - 1) * l).toNat).take l.toNat,
                  page := p, limit := l, total := filtered.length,
                  totalPages := (filtered.length + l.toNat - 1) / l.toNat }
          else .error ()
      | _, _ => .error ()

/-- A `teams` row as `GET /api/teams` returns it (with the player
count the `_count` include adds). -/
structure ApiTeam where
  id : Nat
  name : String
  division : String
  conference : String
  playerCount : Nat
  deriving DecidableEq

/-- The raw query parameters of `GET /api/teams`. -/
structure TeamsQuery where
  division : Option String
  conference : Option String
  search : Option String

/-- The `where` clause of `GET /api/teams` as a row predicate
(`...(division && { division })` spreads). -/
def teamsWhere (q : TeamsQuery) (t : ApiTeam) : Bool :=
  (match parseDivision q.division with
   | none => true
   | some d => t.division == d) &&
  (match q.conference with
   | none => true
   | some c => if c = "" then true else t.conference == c) &&
  (match effectiveSearch q.search with
   | none => true
   | some s => containsCI t.name s)

/-- `GET /api/teams`: filter, order by name ascending, and collect the
distinct non-empty conferences over the whole table. -/
def getTeams (db : List ApiTeam) (q : TeamsQuery) :
    List ApiTeam × List String :=
  let filtered := db.filter (teamsWhere q)
  let sorted := Sorting.sortLe (fun a b => !(b.name < a.name)) filtered
  let confs := Sorting.sortLe (fun a b => !(b < a))
    ((db.filter (fun t => t.conference != "")).map
      (fun t => t.conference)).dedup
  (sorted, confs)

/-- A JSON value as `await req.json()` can deliver a `playerId` field. -/
inductive JsVal where
  | jnum (v : JsNum)
  | jstr (s : String)
  | jbool (b : Bool)
  | jnull
  deriving DecidableEq

/-- `!playerId || typeof playerId !== "number"` — the field passes only
when it is a number that is truthy (not 0, not NaN). -/
def validPlayerId (body : Option JsVal) : Option Int :=
  match body with
  | some (.jnum (.num n)) => if n = 0 then none else some n
  | _ => none

/-- The tables `POST /api/favorites` touches: `users`, `players` (row
ids) and `favorites` rows `(user_id, player_id)`. -/
structure FavoritesDb where
  users : List Int
  players : List Int
  favorites : List (Int × Int)
  deriving DecidableEq

/-- `POST /api/favorites`: 401 without a session; 400 when the body's
`playerId` fails the truthiness/type test; then `favorite.create`, whose
unique-violation error (`P2002`, from
`favorites_user_id_player_id_key`) is mapped to 409, whose other errors
(a foreign key that does not resolve) fall to the catch-all 500, and
which otherwise inserts the one row and returns 201.  Returns the status
code and the resulting table state. -/
def favoritesPost (session : Option Int) (bodyPlayerId : Option JsVal)
    (db : FavoritesDb) : Nat × FavoritesDb :=
  match session with
  | none => (401, db)
  | some uid =>
      match validPlayerId bodyPlayerId with
      | none => (400, db)
      | some pid =>
          if (uid, pid) ∈ db.favorites then (409, db)
          else if uid ∈ db.users ∧ pid ∈ db.players then
            (201, { db with favorites := db.favorites ++ [(uid, pid)] })
          else (500, db)

end Api

namespace Fixtures

/-- A 2026 hitting line for player 1. -/
def hitA : Schema.HittingStat :=
  ⟨1, 2026, 30, 100, 20, 35, 7, 1, 5, 25, 10, 18, 4, 2, 3, 1, 2, 0,
   none, none, none, none, none, none, none⟩

/-- A 2025 hitting line for the same player 1. -/
def hitB : Schema.HittingStat :=
  { hitA with season := 2025, g := 12, ab := 40, h := 11 }

/-- A pitching line for player 2. -/
def pitA : Schema.PitchingStat :=
  ⟨2, 2026, 14, 8, 5, 2, 0, 55, 40, 20, 18, 15, 60, 3, 1, 0, 2, 1, 4,
   none, none, none, none, none, none⟩

/-- A team row. -/
def teamX : Schema.Team := ⟨1, 501, "State U", "Big Conf"⟩

/-- A roster row on team 1 whose id player 1's stats can link to. -/
def playerJ : Schema.Player :=
  ⟨1, some 77, "John", "Smith", some "SS", some "JR", 1, false⟩

/-- Scraped input carrying a stable external identifier. -/
def inpJ : Schema.PlayerInput :=
  ⟨some 77, "John", "Smith", some "SS", some "JR", 1, false⟩

/-- Scraped input without a stable external identifier. -/
def inpK : Schema.PlayerInput :=
  ⟨none, "Alex", "Reyes", none, none, 2, false⟩

/-- The row `inpK` materializes as under row id 2. -/
def playerK : Schema.Player :=
  ⟨2, none, "Alex", "Reyes", none, none, 2, false⟩

/-- A never-scraped registry source. -/
def srcA : Scraper.Source := ⟨1, "example.edu", none, 0⟩

/-- The response of `GET /api/players` on an empty table and an empty
query. -/
def resW : Api.PlayersOk := ⟨[], 1, 50, 0, 0⟩

/-- A joined player row as the players route sees it. -/
def apPlayerA : Api.ApiPlayer :=
  ⟨1, "John", "Smith", some "SS", 1, "State U", "D1", "Big Conf",
   false, none, none⟩

/-- A team row as the teams route sees it. -/
def apTeamA : Api.ApiTeam := ⟨1, "State U", "D1", "Big Conf", 25⟩

/-- Favorites store where user 1 already favorites player 5. -/
def favDb1 : Api.FavoritesDb := ⟨[1], [5], [(1, 5)]⟩

/-- Favorites store with no favorite rows yet. -/
def favDb0 : Api.FavoritesDb := ⟨[1], [5], []⟩

end Fixtures

section Lemmas

namespace Schema

theorem length_updateFirst (p : α → Bool) (f : α → α) (l : List α) :
    (updateFirst p f l).length = l.length := by
  induction l with
  | nil => rfl
  | cons x xs ih =>
      by_cases h : p x <;> simp [updateFirst, h, ih]

theorem mem_updateFirst {p : α → Bool} {f : α → α} {l : List α} {y : α}
    (h : y ∈ updateFirst p f l) :
    y ∈ l ∨ ∃ x ∈ l, p x = true ∧ y = f x := by
  induction l with
  | nil => simp [updateFirst] at h
  | cons x xs ih =>
      by_cases hx : p x
      · simp [updateFirst, hx] at h
        rcases h with h | h
        · exact Or.inr ⟨x, by simp, hx, h⟩
        · exact Or.inl (by simp [h])
      · simp [updateFirst, hx] at h
        rcases h with h | h
        · exact Or.inl (by simp [h])
        · rcases ih h with h | ⟨z, hz, hpz, hy⟩
          · exact Or.inl (by simp [h])
          · exact Or.inr ⟨z, by simp [hz], hpz, hy⟩

theorem self_mem_updateFirst {p : α → Bool} {r : α} {l : List α}
    (h : ∃ x ∈ l, p x = true) :
    r ∈ updateFirst p (fun _ => r) l := by
  induction l with
  | nil => simp at h
  | cons x xs ih =>
      by_cases hx : p x
      · simp [updateFirst, hx]
      · rcases h with ⟨z, hz, hpz⟩
        rcases List.mem_cons.mp hz with rfl | hz
        · exact absurd hpz (by simp [hx])
        · simpa [updateFirst, hx] using Or.inr (ih ⟨z, hz, hpz⟩)

theorem pairwise_updateFirst {R : α → α → Prop} {p : α → Bool}
    {f : α → α} {l : List α} (hl : l.Pairwise R)
    (hrepl : ∀ x ∈ l, p x = true →
      (∀ y, R x y → R (f x) y) ∧ (∀ y, R y x → R y (f x))) :
    (updateFirst p f l).Pairwise R := by
  induction l with
  | nil => exact List.Pairwise.nil
  | cons x xs ih =>
      rcases List.pairwise_cons.mp hl with ⟨hx, hxs⟩
      by_cases hpx : p x
      · rw [updateFirst, if_pos hpx]
        refine List.pairwise_cons.mpr ⟨?_, hxs⟩
        intro y hy
        exact (hrepl x (by simp) hpx).1 y (hx y hy)
      · rw [updateFirst, if_neg hpx]
        refine List.pairwise_cons.mpr ⟨?_, ?_⟩
        · intro y hy
          rcases mem_updateFirst hy with hy | ⟨z, hz, hpz, rfl⟩
          · exact hx y hy
          · exact (hrepl z (by simp [hz]) hpz).2 x (hx z hz)
        · exact ih hxs (fun z hz hpz => hrepl z (by simp [hz]) hpz)

theorem self_mem_upsertByKey [DecidableEq β] (k : α → β) (r : α)
    (db : List α) : r ∈ upsertByKey k r db := by
  by_cases h : db.any (fun x => decide (k x = k r))
  · have hex : ∃ x ∈ db, decide (k x = k r) = true := by
      simpa [List.any_eq_true] using h
    simpa [upsertByKey, h] using self_mem_updateFirst hex
  · simp [upsertByKey, h]

theorem length_upsertByKey_replace [DecidableEq β] {k : α → β} {r : α}
    {db : List α} (h : ∃ x ∈ db, k x = k r) :
    (upsertByKey k r db).length = db.length := by
  have hany : db.any (fun x => decide (k x = k r)) = true := by
    rcases h with ⟨x, hx, hk⟩
    simp [List.any_eq_true]
    exact ⟨x, hx, hk⟩
  simp [upsertByKey, hany, length_updateFirst]

theorem length_upsertByKey_insert [DecidableEq β] {k : α → β} {r : α}
    {db : List α} (h : ¬ ∃ x ∈ db, k x = k r) :
    (upsertByKey k r db).length = db.length + 1 := by
  have hany : db.any (fun x => decide (k x = k r)) = false := by
    simp [List.any_eq_true]
    intro x hx
    exact fun hk => h ⟨x, hx, hk⟩
  simp [upsertByKey, hany]

theorem survives_team_delete {players : List Player} {tid pid : Nat}
    (hany : (players.filter (fun p => p.teamId == tid)).any
      (fun p => p.id == pid) = false)
    (hp : ∃ p ∈ players, p.id = pid) :
    ∃ p ∈ players.filter (fun p => p.teamId != tid), p.id = pid := by
  obtain ⟨p, hpmem, hpid⟩ := hp
  by_cases ht : p.teamId = tid
  · exfalso
    have hmem : p ∈ players.filter (fun q => q.teamId == tid) :=
      List.mem_filter.mpr ⟨hpmem, by simpa using ht⟩
    have hnot : ¬ (players.filter (fun q => q.teamId == tid)).any
        (fun q => q.id == pid) = true := by simp [hany]
    exact hnot (List.any_eq_true.mpr ⟨p, hmem, by simpa using hpid⟩)
  · exact ⟨p, List.mem_filter.mpr ⟨hpmem, by simpa using ht⟩, hpid⟩

theorem mem_upsertByKey [DecidableEq β] {k : α → β} {r y : α}
    {db : List α} (h : y ∈ upsertByKey k r db) : y ∈ db ∨ y = r := by
  by_cases hany : db.any (fun x => decide (k x = k r))
  · rw [upsertByKey, if_pos hany] at h
    rcases mem_updateFirst h with h | ⟨x, _, _, rfl⟩
    · exact Or.inl h
    · exact Or.inr rfl
  · rw [upsertByKey, if_neg hany] at h
    rcases List.mem_append.mp h with h | h
    · exact Or.inl h
    · exact Or.inr (List.mem_singleton.mp h)

theorem pairwise_key_upsertByKey [DecidableEq β] {k : α → β} {r : α}
    {db : List α} (h : db.Pairwise (fun a b => k a ≠ k b)) :
    (upsertByKey k r db).Pairwise (fun a b => k a ≠ k b) := by
  by_cases hany : db.any (fun x => decide (k x = k r))
  · rw [upsertByKey, if_pos hany]
    refine pairwise_updateFirst h ?_
    intro x _hx hpx
    have hk : k x = k r := of_decide_eq_true hpx
    exact ⟨fun y hxy => hk ▸ hxy, fun y hyx => hk ▸ hyx⟩
  · rw [upsertByKey, if_neg hany]
    rw [List.pairwise_append]
    refine ⟨h, List.pairwise_singleton _ _, ?_⟩
    intro x hx y hy
    have : ¬ (k x = k r) := by
      simp [List.any_eq_true] at hany
      exact hany x hx
    simpa [List.mem_singleton.mp hy] using this

end Schema

namespace Sorting

theorem mem_insertLe {le : α → α → Bool} {x a : α} {l : List α} :
    a ∈ insertLe le x l ↔ a = x ∨ a ∈ l := by
  induction l with
  | nil => simp [insertLe]
  | cons y ys ih =>
      by_cases h : le x y
      · simp [insertLe, h]
      · simp [insertLe, h, ih]
        tauto

theorem mem_sortLe {le : α → α → Bool} {a : α} {l : List α} :
    a ∈ sortLe le l ↔ a ∈ l := by
  induction l with
  | nil => simp [sortLe]
  | cons x xs ih => simp [sortLe, mem_insertLe, ih]

theorem length_insertLe {le : α → α → Bool} {x : α} {l : List α} :
    (insertLe le x l).length = l.length + 1 := by
  induction l with
  | nil => rfl
  | cons y ys ih =>
      by_cases h : le x y <;> simp [insertLe, h, ih]

theorem length_sortLe {le : α → α → Bool} {l : List α} :
    (sortLe le l).length = l.length := by
  induction l with
  | nil => rfl
  | cons x xs ih => simp [sortLe, length_insertLe, ih]

end Sorting

namespace Scraper

theorem gate_preserves_failCount {b b1 : Breaker} {now : Nat}
    (h : b.gate now = some b1) : b1.failCount = b.failCount := by
  unfold Breaker.gate at h
  cases hst : b.st <;> rw [hst] at h
  · exact (Option.some.inj h) ▸ rfl
  · by_cases hc : now < b.cooldownExpiry
    · rw [if_pos hc] at h
      cases h
    · rw [if_neg hc] at h
      exact (Option.some.inj h) ▸ rfl
  · exact (Option.some.inj h) ▸ rfl

theorem onTransient_failCount (cfg : BreakerConfig) (now : Nat)
    (b : Breaker) :
    (Breaker.onTransient cfg now b).failCount = b.failCount + 1 := by
  unfold Breaker.onTransient
  by_cases h : (decide (cfg.threshold ≤ b.failCount + 1) ||
      b.st == BreakerSt.halfOpen) = true <;> simp [h]

theorem onTransient_st (cfg : BreakerConfig) (now : Nat) (b : Breaker)
    (h : (b.st == BreakerSt.halfOpen) = false) :
    (Breaker.onTransient cfg now b).st =
      (if cfg.threshold ≤ b.failCount + 1 then BreakerSt.opened
       else .closed) := by
  unfold Breaker.onTransient
  rw [h]
  by_cases h1 : cfg.threshold ≤ b.failCount + 1 <;> simp [h1]

theorem iterate_onTransient (cfg : BreakerConfig) (now : Nat) (k : Nat) :
    ((fun x => Breaker.onTransient cfg now x)^[k] Breaker.fresh).failCount
        = k ∧
    ((fun x => Breaker.onTransient cfg now x)^[k] Breaker.fresh).st =
      (if cfg.threshold ≤ k ∧ 0 < k then BreakerSt.opened else .closed) := by
  induction k with
  | zero =>
      constructor
      · rfl
      · simp [Breaker.fresh]
  | succ k ih =>
      obtain ⟨ihc, ihs⟩ := ih
      have hnot : (((fun x => Breaker.onTransient cfg now x)^[k]
          Breaker.fresh).st == BreakerSt.halfOpen) = false := by
        rw [ihs]
        by_cases hc : cfg.threshold ≤ k ∧ 0 < k <;> simp [hc]
      rw [Function.iterate_succ_apply']
      constructor
      · rw [onTransient_failCount, ihc]
      · rw [onTransient_st cfg now _ hnot, ihc]
        by_cases h1 : cfg.threshold ≤ k + 1 <;> simp [h1]

theorem runAttempts_zero (cfg : BreakerConfig) (now : Nat)
    (net : Nat → Outcome) (i : Nat) (b : Breaker) :
    runAttempts cfg now net i 0 b =
      match net i with
      | .success => (.ok, 1, b.onSuccess)
      | .failure e =>
          if e.isTransient then (.failed e, 1, b.onTransient cfg now)
          else (.failed e, 1, b) := rfl

theorem runAttempts_succ (cfg : BreakerConfig) (now : Nat)
    (net : Nat → Outcome) (i rl : Nat) (b : Breaker) :
    runAttempts cfg now net i (rl + 1) b =
      match net i with
      | .success => (.ok, 1, b.onSuccess)
      | .failure e =>
          if e.isTransient then
            let r := runAttempts cfg now net (i + 1) rl
              (b.onTransient cfg now)
            (r.1, r.2.1 + 1, r.2.2)
          else (.failed e, 1, b) := rfl

theorem dropSpaces_of_head_ne (x : Char) (xs : List Char)
    (h : (x == ' ') = false) :
    (x :: xs).dropWhile (fun c => c == ' ') = x :: xs := by
  simp [List.dropWhile_cons, h]

theorem trimChars_no_space {l : List Char} (h : ∀ c ∈ l, c ≠ ' ') :
    trimChars l = l := by
  unfold trimChars
  have h1 : l.dropWhile (fun c => c == ' ') = l := by
    cases l with
    | nil => rfl
    | cons x xs =>
        exact dropSpaces_of_head_ne x xs (by simpa using h x (by simp))
  rw [h1]
  have h2 : l.reverse.dropWhile (fun c => c == ' ') = l.reverse := by
    cases hlr : l.reverse with
    | nil => rfl
    | cons c t =>
        refine dropSpaces_of_head_ne c t ?_
        have hc : c ∈ l := List.mem_reverse.mp (hlr ▸ List.mem_cons_self c t)
        simpa using h c hc
  rw [h2, List.reverse_reverse]

theorem trimChars_cons_space (l : List Char) :
    trimChars (' ' :: l) = trimChars l := by
  unfold trimChars
  simp [List.dropWhile_cons]

theorem splitAtFirst_not_mem {c : Char} {l : List Char}
    (h : ∀ x ∈ l, x ≠ c) : splitAtFirst c l = none := by
  induction l with
  | nil => rfl
  | cons x xs ih =>
      have hx : (x == c) = false := by simpa using h x (by simp)
      rw [splitAtFirst, if_neg (by simp [hx]),
        ih (fun y hy => h y (by simp [hy]))]

theorem splitAtFirst_append {c : Char} {xs ys : List Char}
    (h : ∀ x ∈ xs, x ≠ c) :
    splitAtFirst c (xs ++ c :: ys) = some (xs, ys) := by
  induction xs with
  | nil => simp [splitAtFirst]
  | cons x xs ih =>
      have hx : (x == c) = false := by simpa using h x (by simp)
      rw [List.cons_append, splitAtFirst, if_neg (by simp [hx]),
        ih (fun y hy => h y (by simp [hy]))]

end Scraper

namespace Api

theorem limitOf_bounds {raw : Option String} {l : Int}
    (h : limitOf raw = .num l) : 1 ≤ l ∧ l ≤ 100 := by
  unfold limitOf at h
  cases hjs : jsParseInt (jsOrDefault raw "50") with
  | nan => rw [hjs] at h; simp [jsMax, jsMin] at h
  | num n =>
      rw [hjs] at h
      simp only [jsMax, jsMin, JsNum.num.injEq] at h
      omega

theorem pageOf_pos {raw : Option String} {p : Int}
    (h : pageOf raw = .num p) : 1 ≤ p := by
  unfold pageOf at h
  cases hjs : jsParseInt (jsOrDefault raw "1") with
  | nan => rw [hjs] at h; simp [jsMax] at h
  | num n =>
      rw [hjs] at h
      simp only [jsMax, JsNum.num.injEq] at h
      omega

theorem ceil_div_galois {t L k : Nat} (hL : 1 ≤ L) :
    t ≤ k * L ↔ (t + L - 1) / L ≤ k := by
  rw [Nat.div_le_iff_le_mul_add_pred (by omega)]
  simp only [Nat.mul_comm k L]
  omega

end Api

end Lemmas

/-- C1 counterexample: the unique indexes `hitting_stats_player_id_key`
and `pitching_stats_player_id_key` are on `player_id` alone, so a
hitting-stat write for player 1, season 2025 replaces that player's
persisted season-2026 record even though the written (player, season)
key differs from the stored one — stat persistence is not keyed by the
pair (player, season). -/
theorem hitting_upsert_not_keyed_by_player_season :
    Fixtures.hitB.playerId = Fixtures.hitA.playerId ∧
    Fixtures.hitB.season ≠ Fixtures.hitA.season ∧
    Schema.upsertHitting Fixtures.hitB [Fixtures.hitA] = [Fixtures.hitB] ∧
    Fixtures.hitA ∉ Schema.upsertHitting Fixtures.hitB [Fixtures.hitA] := by
  have hne : Fixtures.hitA ≠ Fixtures.hitB := by
    intro h
    have hs := congrArg Schema.HittingStat.season h
    simp [Fixtures.hitA, Fixtures.hitB] at hs
  refine ⟨rfl, by decide, rfl, ?_⟩
  have e : Schema.upsertHitting Fixtures.hitB [Fixtures.hitA] =
      [Fixtures.hitB] := rfl
  rw [e]
  simpa using hne

/-- C1 (amended): stat persistence is replace-on-conflict keyed by the
player alone (per stat table): writes preserve at-most-one-record-per-
player — hence a fortiori at most one per (player, season) — the written
record is present afterwards, a write for a player that already has a
record replaces it (same row count, no failure), and a write for a new
player appends one row. -/
theorem stat_upsert_replace_on_conflict_keyed_by_player
    (hdb : List Schema.HittingStat) (pdb : List Schema.PitchingStat)
    (h : Schema.HittingStat) (p : Schema.PitchingStat)
    (hh : Schema.AtMostOneHittingPerPlayer hdb)
    (hp : Schema.AtMostOnePitchingPerPlayer pdb) :
    Schema.AtMostOneHittingPerPlayer (Schema.upsertHitting h hdb) ∧
    Schema.AtMostOnePitchingPerPlayer (Schema.upsertPitching p pdb) ∧
    h ∈ Schema.upsertHitting h hdb ∧
    p ∈ Schema.upsertPitching p pdb ∧
    ((∃ x ∈ hdb, x.playerId = h.playerId) →
      (Schema.upsertHitting h hdb).length = hdb.length) ∧
    ((¬ ∃ x ∈ hdb, x.playerId = h.playerId) →
      (Schema.upsertHitting h hdb).length = hdb.length + 1) ∧
    ((∃ x ∈ pdb, x.playerId = p.playerId) →
      (Schema.upsertPitching p pdb).length = pdb.length) ∧
    ((¬ ∃ x ∈ pdb, x.playerId = p.playerId) →
      (Schema.upsertPitching p pdb).length = pdb.length + 1) := by
  refine ⟨Schema.pairwise_key_upsertByKey hh,
    Schema.pairwise_key_upsertByKey hp,
    Schema.self_mem_upsertByKey _ _ _,
    Schema.self_mem_upsertByKey _ _ _,
    fun hx => Schema.length_upsertByKey_replace hx,
    fun hx => Schema.length_upsertByKey_insert hx,
    fun hx => Schema.length_upsertByKey_replace hx,
    fun hx => Schema.length_upsertByKey_insert hx⟩

/-- Witness for the amended C1 theorem at a one-row hitting table and an
empty pitching table. -/
theorem stat_upsert_replace_on_conflict_keyed_by_player_witness :
    (Schema.AtMostOneHittingPerPlayer [Fixtures.hitA] ∧
     Schema.AtMostOnePitchingPerPlayer []) ∧
    (Schema.AtMostOneHittingPerPlayer
        (Schema.upsertHitting Fixtures.hitB [Fixtures.hitA]) ∧
     Schema.AtMostOnePitchingPerPlayer
        (Schema.upsertPitching Fixtures.pitA []) ∧
     Fixtures.hitB ∈ Schema.upsertHitting Fixtures.hitB [Fixtures.hitA] ∧
     Fixtures.pitA ∈ Schema.upsertPitching Fixtures.pitA [] ∧
     ((∃ x ∈ [Fixtures.hitA], x.playerId = Fixtures.hitB.playerId) →
       (Schema.upsertHitting Fixtures.hitB [Fixtures.hitA]).length =
         [Fixtures.hitA].length) ∧
     ((¬ ∃ x ∈ [Fixtures.hitA], x.playerId = Fixtures.hitB.playerId) →
       (Schema.upsertHitting Fixtures.hitB [Fixtures.hitA]).length =
         [Fixtures.hitA].length + 1) ∧
     ((∃ x ∈ ([] : List Schema.PitchingStat),
         x.playerId = Fixtures.pitA.playerId) →
       (Schema.upsertPitching Fixtures.pitA []).length =
         ([] : List Schema.PitchingStat).length) ∧
     ((¬ ∃ x ∈ ([] : List Schema.PitchingStat),
         x.playerId = Fixtures.pitA.playerId) →
       (Schema.upsertPitching Fixtures.pitA []).length =
         ([] : List Schema.PitchingStat).length + 1)) :=
  ⟨⟨by simp [Schema.AtMostOneHittingPerPlayer],
    by simp [Schema.AtMostOnePitchingPerPlayer]⟩,
   stat_upsert_replace_on_conflict_keyed_by_player [Fixtures.hitA] []
     Fixtures.hitB Fixtures.pitA
     (by simp [Schema.AtMostOneHittingPerPlayer])
     (by simp [Schema.AtMostOnePitchingPerPlayer])⟩

/-- C2: in every store reachable from empty through the schema's write
operations — with the foreign keys `hitting_stats_player_id_fkey` and
`pitching_stats_player_id_fkey` rejecting unresolvable links and the
`ON DELETE CASCADE` clauses removing dependent rows — every persisted
hitting-stat and pitching-stat record links to a persisted player row. -/
theorem stat_records_always_link_to_players (db : Schema.Db)
    (h : Schema.Reachable db) : Schema.StatLinksResolve db := by
  induction h with
  | empty => exact ⟨by simp [Schema.Db.empty], by simp [Schema.Db.empty]⟩
  | @step dba dbb op hr heq ih =>
      obtain ⟨ihH, ihP⟩ := ih
      cases op with
      | insertTeam t =>
          simp only [Schema.applyOp, Except.ok.injEq] at heq
          subst heq
          exact ⟨ihH, ihP⟩
      | deleteTeam tid =>
          simp only [Schema.applyOp, Except.ok.injEq] at heq
          subst heq
          constructor
          · intro s hs
            rcases List.mem_filter.mp hs with ⟨hsmem, hkeep⟩
            exact Schema.survives_team_delete
              (by simpa using hkeep) (ihH s hsmem)
          · intro s hs
            rcases List.mem_filter.mp hs with ⟨hsmem, hkeep⟩
            exact Schema.survives_team_delete
              (by simpa using hkeep) (ihP s hsmem)
      | insertPlayer q =>
          by_cases hc : (dba.teams.any (fun t => t.id == q.teamId)) = true
          · simp only [Schema.applyOp] at heq
            rw [if_pos hc] at heq
            rcases heq with ⟨⟩
            exact ⟨fun s hs => (ihH s hs).imp
                (fun p hp => ⟨List.mem_append_left _ hp.1, hp.2⟩),
              fun s hs => (ihP s hs).imp
                (fun p hp => ⟨List.mem_append_left _ hp.1, hp.2⟩)⟩
          · simp only [Schema.applyOp] at heq
            rw [if_neg hc] at heq
            simp at heq
      | deletePlayer pid =>
          simp only [Schema.applyOp, Except.ok.injEq] at heq
          subst heq
          constructor
          · intro s hs
            rcases List.mem_filter.mp hs with ⟨hsmem, hkeep⟩
            obtain ⟨p, hp, hpid⟩ := ihH s hsmem
            refine ⟨p, List.mem_filter.mpr ⟨hp, ?_⟩, hpid⟩
            have hne : s.playerId ≠ pid := bne_iff_ne.mp hkeep
            exact bne_iff_ne.mpr (by rw [hpid]; exact hne)
          · intro s hs
            rcases List.mem_filter.mp hs with ⟨hsmem, hkeep⟩
            obtain ⟨p, hp, hpid⟩ := ihP s hsmem
            refine ⟨p, List.mem_filter.mpr ⟨hp, ?_⟩, hpid⟩
            have hne : s.playerId ≠ pid := bne_iff_ne.mp hkeep
            exact bne_iff_ne.mpr (by rw [hpid]; exact hne)
      | writeHitting r =>
          by_cases hc : (dba.players.any (fun p => p.id == r.playerId)) = true
          · simp only [Schema.applyOp] at heq
            rw [if_pos hc] at heq
            rcases heq with ⟨⟩
            refine ⟨?_, ihP⟩
            intro s hs
            rcases Schema.mem_upsertByKey hs with hs | rfl
            · exact ihH s hs
            · rcases List.any_eq_true.mp hc with ⟨p, hp, hpk⟩
              exact ⟨p, hp, by simpa using hpk⟩
          · simp only [Schema.applyOp] at heq
            rw [if_neg hc] at heq
            simp at heq
      | writePitching r =>
          by_cases hc : (dba.players.any (fun p => p.id == r.playerId)) = true
          · simp only [Schema.applyOp] at heq
            rw [if_pos hc] at heq
            rcases heq with ⟨⟩
            refine ⟨ihH, ?_⟩
            intro s hs
            rcases Schema.mem_upsertByKey hs with hs | rfl
            · exact ihP s hs
            · rcases List.any_eq_true.mp hc with ⟨p, hp, hpk⟩
              exact ⟨p, hp, by simpa using hpk⟩
          · simp only [Schema.applyOp] at heq
            rw [if_neg hc] at heq
            simp at heq

/-- Witness for C2 at the store reached by inserting a team, a player on
it, and that player's hitting line. -/
theorem stat_records_always_link_to_players_witness :
    Schema.StatLinksResolve
      ⟨[Fixtures.teamX], [Fixtures.playerJ], [Fixtures.hitA], []⟩ :=
  stat_records_always_link_to_players _
    (Schema.Reachable.step (.writeHitting Fixtures.hitA)
      (Schema.Reachable.step (.insertPlayer Fixtures.playerJ)
        (Schema.Reachable.step (.insertTeam Fixtures.teamX)
          Schema.Reachable.empty rfl) rfl) rfl)

/-- C3: every player table produced by the writer's upsert discipline —
keyed by the stable external identifier when one is available, otherwise
by the composite (team, normalized-name) key — satisfies the claim's
uniqueness: distinct rows never share a non-null external identifier
(`players_ncaa_id_key`), and distinct rows both lacking one never share
the (team, first, last) composite key. -/
theorem player_upsert_keys_unique (db : List Schema.Player)
    (h : Schema.ReachablePlayers db) : Schema.PlayerKeysUnique db := by
  induction h with
  | empty => exact List.Pairwise.nil
  | @step db0 inp fresh hr ih =>
      cases hn : inp.ncaaId with
      | some n =>
          simp only [Schema.upsertPlayer, hn]
          by_cases hany : (db0.any (fun p => decide (p.ncaaId = some n)))
            = true
          · rw [if_pos hany]
            refine Schema.pairwise_updateFirst ih ?_
            intro x _hx hpx
            have hxn : x.ncaaId = some n := of_decide_eq_true hpx
            have hfn : (inp.toRow x.id).ncaaId = some n := by
              simp [Schema.PlayerInput.toRow, hn]
            constructor
            · intro y hxy
              constructor
              · intro m hm
                rw [hfn] at hm
                obtain rfl := Option.some.inj hm
                exact hxy.1 n hxn
              · intro h0
                rw [hfn] at h0
                cases h0
            · intro y hyx
              constructor
              · intro m hym hcontr
                exact hyx.1 m hym (hxn.trans (hfn.symm.trans hcontr))
              · intro _hy0 h0
                rw [hfn] at h0
                cases h0
          · rw [if_neg hany]
            refine List.pairwise_append.mpr
              ⟨ih, List.pairwise_singleton _ _, ?_⟩
            intro x hx y hy
            rcases List.mem_singleton.mp hy with rfl
            have hxn : x.ncaaId ≠ some n := by
              simp only [List.any_eq_true, decide_eq_true_eq] at hany
              exact fun hc => hany ⟨x, hx, hc⟩
            constructor
            · intro m hxm hcontr
              have : inp.ncaaId = some m := by
                simpa [Schema.PlayerInput.toRow] using hcontr
              rw [hn] at this
              rcases this with ⟨⟩
              exact hxn hxm
            · intro _hx0 h0
              simp [Schema.PlayerInput.toRow, hn] at h0
      | none =>
          simp only [Schema.upsertPlayer, hn]
          by_cases hany : (db0.any (fun p => decide (p.ncaaId = none) &&
              decide (p.nameKey = inp.nameKey))) = true
          · rw [if_pos hany]
            refine Schema.pairwise_updateFirst ih ?_
            intro x _hx hpx
            have hpx2 : x.ncaaId = none ∧ x.nameKey = inp.nameKey := by
              simpa using hpx
            obtain ⟨hx0, hxk⟩ := hpx2
            have hf0 : (inp.toRow x.id).ncaaId = none := by
              simp [Schema.PlayerInput.toRow, hn]
            have hfk : (inp.toRow x.id).nameKey = x.nameKey := by
              rw [hxk]
              exact rfl
            constructor
            · intro y hxy
              constructor
              · intro m hm
                rw [hf0] at hm
                cases hm
              · intro _ hy0
                rw [hfk]
                exact hxy.2 hx0 hy0
            · intro y hyx
              constructor
              · intro m hym hcontr
                rw [hf0] at hcontr
                cases hcontr
              · intro hy0 _
                rw [hfk]
                exact hyx.2 hy0 hx0
          · rw [if_neg hany]
            refine List.pairwise_append.mpr
              ⟨ih, List.pairwise_singleton _ _, ?_⟩
            intro x hx y hy
            rcases List.mem_singleton.mp hy with rfl
            constructor
            · intro m _hxm hcontr
              have : inp.ncaaId = some m := by
                simpa [Schema.PlayerInput.toRow] using hcontr
              rw [hn] at this
              cases this
            · intro hx0 _ hkeq
              simp only [List.any_eq_true, Bool.and_eq_true,
                decide_eq_true_eq] at hany
              refine hany ⟨x, hx, hx0, ?_⟩
              simpa [Schema.PlayerInput.toRow, Schema.Player.nameKey,
                Schema.PlayerInput.nameKey] using hkeq

/-- Witness for C3 at the table reached by upserting one identified and
one identifier-less player. -/
theorem player_upsert_keys_unique_witness :
    Schema.PlayerKeysUnique [Fixtures.playerJ, Fixtures.playerK] :=
  player_upsert_keys_unique _
    (Schema.ReachablePlayers.step Fixtures.inpK 2
      (Schema.ReachablePlayers.step Fixtures.inpJ 1
        Schema.ReachablePlayers.empty))

/-- C4: a fetch whose network outcome is a TLS certificate error is
returned immediately: exactly one network attempt (zero retries), and the
domain's circuit-breaker record — its failure counter in particular — is
exactly what the pre-I/O gate produced, with the counter unchanged from
the initial state. -/
theorem tls_error_no_retry_no_breaker_change
    (cfg : Scraper.BreakerConfig) (retryMax now : Nat)
    (net : Nat → Scraper.Outcome) (b b1 : Scraper.Breaker)
    (hgate : b.gate now = some b1)
    (hnet : net 0 = .failure .tlsCertError) :
    Scraper.fetch cfg retryMax now net b =
      (.failed .tlsCertError, 1, b1) ∧
    b1.failCount = b.failCount := by
  refine ⟨?_, Scraper.gate_preserves_failCount hgate⟩
  simp only [Scraper.fetch, hgate]
  cases retryMax with
  | zero =>
      rw [Scraper.runAttempts_zero, hnet]
      rfl
  | succ rl =>
      rw [Scraper.runAttempts_succ, hnet]
      rfl

/-- Witness for C4: a closed breaker fetching a domain whose certificate
is invalid. -/
theorem tls_error_no_retry_no_breaker_change_witness :
    (Scraper.Breaker.fresh.gate 0 = some Scraper.Breaker.fresh ∧
     (fun _ : Nat => Scraper.Outcome.failure .tlsCertError) 0 =
       Scraper.Outcome.failure .tlsCertError) ∧
    (Scraper.fetch ⟨3, 60⟩ 3 0
        (fun _ => Scraper.Outcome.failure .tlsCertError)
        Scraper.Breaker.fresh =
      (.failed .tlsCertError, 1, Scraper.Breaker.fresh) ∧
     Scraper.Breaker.fresh.failCount = Scraper.Breaker.fresh.failCount) :=
  ⟨⟨rfl, rfl⟩,
   tls_error_no_retry_no_breaker_change ⟨3, 60⟩ 3 0
     (fun _ => Scraper.Outcome.failure .tlsCertError)
     Scraper.Breaker.fresh Scraper.Breaker.fresh rfl rfl⟩

/-- C5: after `threshold` consecutive transient failures a domain's
breaker is Open; while the cooldown has not elapsed every fetch to the
domain returns `CircuitOpen` with zero network attempts and an untouched
breaker; once the cooldown has elapsed the gate admits exactly one
probing call in the HalfOpen state, and a successful probe closes the
breaker again with a zeroed counter. -/
theorem circuit_breaker_open_cooldown_halfopen
    (cfg : Scraper.BreakerConfig) (retryMax now : Nat)
    (net : Nat → Scraper.Outcome) (b : Scraper.Breaker)
    (hthr : 0 < cfg.threshold) :
    ((fun x => Scraper.Breaker.onTransient cfg now x)^[cfg.threshold]
        Scraper.Breaker.fresh).st = .opened ∧
    (b.st = .opened → now < b.cooldownExpiry →
      Scraper.fetch cfg retryMax now net b = (.circuitOpen, 0, b)) ∧
    (b.st = .opened → b.cooldownExpiry ≤ now →
      b.gate now = some { b with st := .halfOpen } ∧
      (net 0 = .success →
        Scraper.fetch cfg retryMax now net b =
          (.ok, 1, ⟨.closed, 0, 0⟩))) := by
  refine ⟨?_, ?_, ?_⟩
  · rw [(Scraper.iterate_onTransient cfg now cfg.threshold).2,
      if_pos ⟨le_refl _, hthr⟩]
  · intro hst hlt
    have hgate : b.gate now = none := by
      unfold Scraper.Breaker.gate
      rw [hst, if_pos hlt]
    simp only [Scraper.fetch, hgate]
  · intro hst hge
    have hgate : b.gate now = some { b with st := .halfOpen } := by
      unfold Scraper.Breaker.gate
      rw [hst, if_neg (Nat.not_lt.mpr hge)]
    refine ⟨hgate, ?_⟩
    intro hnet
    simp only [Scraper.fetch, hgate]
    cases retryMax with
    | zero =>
        rw [Scraper.runAttempts_zero, hnet]
        rfl
    | succ rl =>
        rw [Scraper.runAttempts_succ, hnet]
        rfl

/-- Witness for C5 with threshold 2 and cooldown 60: an Open breaker at
time 0 short-circuits, the same breaker at time 100 admits the probe and
closes on success, and two transient failures open a fresh breaker. -/
theorem circuit_breaker_open_cooldown_halfopen_witness :
    0 < (⟨2, 60⟩ : Scraper.BreakerConfig).threshold ∧
    Scraper.fetch ⟨2, 60⟩ 3 0 (fun _ => Scraper.Outcome.success)
        ⟨.opened, 2, 60⟩ = (.circuitOpen, 0, ⟨.opened, 2, 60⟩) ∧
    Scraper.fetch ⟨2, 60⟩ 3 100 (fun _ => Scraper.Outcome.success)
        ⟨.opened, 2, 60⟩ = (.ok, 1, ⟨.closed, 0, 0⟩) ∧
    ((fun x => Scraper.Breaker.onTransient ⟨2, 60⟩ 0 x)^[2]
        Scraper.Breaker.fresh).st = .opened :=
  ⟨by decide,
   (circuit_breaker_open_cooldown_halfopen ⟨2, 60⟩ 3 0
       (fun _ => Scraper.Outcome.success) ⟨.opened, 2, 60⟩
       (by decide)).2.1 rfl (by decide),
   ((circuit_breaker_open_cooldown_halfopen ⟨2, 60⟩ 3 100
       (fun _ => Scraper.Outcome.success) ⟨.opened, 2, 60⟩
       (by decide)).2.2 rfl (by decide)).2 rfl,
   (circuit_breaker_open_cooldown_halfopen ⟨2, 60⟩ 3 0
       (fun _ => Scraper.Outcome.success) ⟨.opened, 2, 60⟩
       (by decide)).1⟩

/-- C6: with the force flag off, the Scheduler's selected list contains
no source whose last successful scrape lies within the current season
epoch. -/
theorem scheduler_skips_sources_scraped_this_epoch
    (seasonStart cap : Nat) (registry : List Scraper.Source)
    (s : Scraper.Source)
    (hs : s ∈ Scraper.selectDue seasonStart cap false registry) :
    Scraper.inCurrentEpoch seasonStart s = false := by
  replace hs : s ∈ (Sorting.sortLe
      (fun a b => a.orderKey ≤ b.orderKey)
      (registry.filter
        (fun t => !(Scraper.inCurrentEpoch seasonStart t)))).take cap := hs
  have h2 := Sorting.mem_sortLe.mp (List.take_subset _ _ hs)
  have h3 := (List.mem_filter.mp h2).2
  simpa using h3

/-- Witness for C6: a never-scraped source is selected and is indeed not
inside the current epoch. -/
theorem scheduler_skips_sources_scraped_this_epoch_witness :
    Fixtures.srcA ∈ Scraper.selectDue 500 5 false [Fixtures.srcA] ∧
    Scraper.inCurrentEpoch 500 Fixtures.srcA = false :=
  ⟨List.mem_singleton.mpr rfl,
   scheduler_skips_sources_scraped_this_epoch 500 5 [Fixtures.srcA]
     Fixtures.srcA (List.mem_singleton.mpr rfl)⟩

/-- C7: name normalization maps "Last, First" and "First Last" to the
same canonical (first, last) pair: concretely "Smith, John" and
"John Smith" both give first = John, last = Smith, and in general, for
any comma- and space-free first/last words, the comma form and the space
form normalize to the identical (first, last) fields. -/
theorem name_normalization_flips_last_first :
    Scraper.normalizeName "Smith, John" = ("John", "Smith") ∧
    Scraper.normalizeName "John Smith" = ("John", "Smith") ∧
    ∀ (f l : List Char), f ≠ [] → l ≠ [] →
      (∀ c ∈ f, c ≠ ',' ∧ c ≠ ' ') → (∀ c ∈ l, c ≠ ',' ∧ c ≠ ' ') →
      Scraper.normalizeNameChars (l ++ ',' :: ' ' :: f) = (f, l) ∧
      Scraper.normalizeNameChars (f ++ ' ' :: l) = (f, l) := by
  refine ⟨rfl, rfl, ?_⟩
  intro f l hf hl hfc hlc
  constructor
  · unfold Scraper.normalizeNameChars
    rw [Scraper.splitAtFirst_append (fun x hx => (hlc x hx).1)]
    show (Scraper.trimChars (' ' :: f), Scraper.trimChars l) = (f, l)
    rw [Scraper.trimChars_cons_space,
      Scraper.trimChars_no_space (fun c hc => (hfc c hc).2),
      Scraper.trimChars_no_space (fun c hc => (hlc c hc).2)]
  · have hnc : ∀ x ∈ f ++ ' ' :: l, x ≠ ',' := by
      intro x hx
      rcases List.mem_append.mp hx with hx | hx
      · exact (hfc x hx).1
      · rcases List.mem_cons.mp hx with rfl | hx
        · intro hcontr
          cases hcontr
        · exact (hlc x hx).1
    have htrim : Scraper.trimChars (f ++ ' ' :: l) = f ++ ' ' :: l := by
      obtain ⟨cf, fr, rfl⟩ : ∃ cf fr, f = cf :: fr := by
        cases f with
        | nil => exact absurd rfl hf
        | cons a b => exact ⟨a, b, rfl⟩
      unfold Scraper.trimChars
      have h1 : ((cf :: fr) ++ ' ' :: l).dropWhile (fun c => c == ' ') =
          (cf :: fr) ++ ' ' :: l := by
        rw [List.cons_append]
        exact Scraper.dropSpaces_of_head_ne _ _
          (by simpa using (hfc cf (by simp)).2)
      rw [h1]
      cases hlr : l.reverse with
      | nil =>
          exact absurd (by simpa using congrArg List.reverse hlr) hl
      | cons c t =>
          have hcmem : c ∈ l :=
            List.mem_reverse.mp (hlr ▸ List.mem_cons_self c t)
          have hrev : ((cf :: fr) ++ ' ' :: l).reverse =
              c :: (t ++ ' ' :: (cf :: fr).reverse) := by
            simp [List.reverse_append, hlr]
          rw [hrev, Scraper.dropSpaces_of_head_ne c _
            (by simpa using (hlc c hcmem).2), ← hrev, List.reverse_reverse]
    unfold Scraper.normalizeNameChars
    rw [Scraper.splitAtFirst_not_mem hnc, htrim,
      Scraper.splitAtFirst_append (fun x hx => (hfc x hx).2)]
    show (f, Scraper.trimChars l) = (f, l)
    rw [Scraper.trimChars_no_space (fun c hc => (hlc c hc).2)]

/-- Witness for C7's general flip at first = Jane, last = Doe. -/
theorem name_normalization_flips_last_first_witness :
    Scraper.normalizeNameChars
        (['D', 'o', 'e'] ++ ',' :: ' ' :: ['J', 'a', 'n', 'e']) =
      (['J', 'a', 'n', 'e'], ['D', 'o', 'e']) ∧
    Scraper.normalizeNameChars
        (['J', 'a', 'n', 'e'] ++ ' ' :: ['D', 'o', 'e']) =
      (['J', 'a', 'n', 'e'], ['D', 'o', 'e']) :=
  name_normalization_flips_last_first.2.2
    ['J', 'a', 'n', 'e'] ['D', 'o', 'e']
    (by decide) (by decide) (by decide) (by decide)

/-- C8 counterexample: `parseInt("abc")` is NaN, and NaN propagates
through `Math.min(100, Math.max(1, ...))`, so a present but unparsable
`limit` parameter does not default to 50 — the query layer receives NaN
`take` and the request ends in the catch-all 500, not in a page of 50. -/
theorem players_limit_unparsable_not_defaulted :
    Api.limitOf (some "abc") = Api.JsNum.nan ∧
    Api.JsNum.nan ≠ Api.JsNum.num 50 ∧
    Api.getPlayers []
        { Api.PlayersQuery.empty with limit := some "abc" } =
      Except.error () :=
  ⟨rfl, by decide, rfl⟩

/-- C8 (amended): the effective limit is 50 when the parameter is absent
or empty and `min 100 (max 1 n)` when it parses to `n` (so always within
1..100 when numeric); the effective page is `max 1 n` when it parses;
every successful response has page ≥ 1, a limit within 1..100, at most
100 (indeed at most `limit`) player records, `totalPages` equal to the
ceiling of total/limit, and a row list from which exactly
`(page-1)*limit` records were skipped and at most `limit` taken; a
non-numeric page or limit yields NaN and the request fails with the
catch-all 500 rather than being clamped or defaulted. -/
theorem players_pagination_clamped :
    (Api.limitOf none = Api.JsNum.num 50 ∧
     Api.limitOf (some "") = Api.JsNum.num 50 ∧
     Api.pageOf none = Api.JsNum.num 1) ∧
    (∀ (s : String) (n : Int), Api.jsParseInt s = Api.JsNum.num n →
      s ≠ "" →
      Api.limitOf (some s) = Api.JsNum.num (min 100 (max 1 n)) ∧
      Api.pageOf (some s) = Api.JsNum.num (max 1 n)) ∧
    (∀ (raw : Option String) (l : Int),
      Api.limitOf raw = Api.JsNum.num l → 1 ≤ l ∧ l ≤ 100) ∧
    (∀ (raw : Option String) (p : Int),
      Api.pageOf raw = Api.JsNum.num p → 1 ≤ p) ∧
    (∀ (db : List Api.ApiPlayer) (q : Api.PlayersQuery)
        (res : Api.PlayersOk), Api.getPlayers db q = .ok res →
      1 ≤ res.page ∧ 1 ≤ res.limit ∧ res.limit ≤ 100 ∧
      res.players.length ≤ res.limit.toNat ∧ res.players.length ≤ 100 ∧
      (∀ k : Nat, res.total ≤ k * res.limit.toNat ↔ res.totalPages ≤ k) ∧
      (∃ rows : List Api.ApiPlayer, rows.length = res.total ∧
        res.players =
          (rows.drop (((res.page - 1) * res.limit).toNat)).take
            res.limit.toNat)) ∧
    (∀ (db : List Api.ApiPlayer) (q : Api.PlayersQuery),
      Api.pageOf q.page = Api.JsNum.nan ∨
        Api.limitOf q.limit = Api.JsNum.nan →
      Api.getPlayers db q = Except.error ()) := by
  refine ⟨⟨rfl, rfl, rfl⟩, ?_, ?_, ?_, ?_, ?_⟩
  · intro s n hp hs
    have hor : Api.jsOrDefault (some s) "50" = s := by
      simp [Api.jsOrDefault, hs]
    have hor1 : Api.jsOrDefault (some s) "1" = s := by
      simp [Api.jsOrDefault, hs]
    constructor
    · unfold Api.limitOf
      rw [hor, hp]
      rfl
    · unfold Api.pageOf
      rw [hor1, hp]
      rfl
  · exact fun raw l h => Api.limitOf_bounds h
  · exact fun raw p h => Api.pageOf_pos h
  · intro db q res h
    simp only [Api.getPlayers] at h
    split at h
    · simp at h
    · rename_i cmp hcmp
      split at h
      · rename_i p l hpage hlimit
        split at h
        · injection h with h2
          subst h2
          have hl := Api.limitOf_bounds hlimit
          have hp := Api.pageOf_pos hpage
          refine ⟨hp, hl.1, hl.2, List.length_take_le _ _, ?_, ?_, ?_⟩
          · exact le_trans (List.length_take_le _ _)
              (show l.toNat ≤ 100 by omega)
          · intro k
            exact Api.ceil_div_galois (show 1 ≤ l.toNat by omega)
          · refine ⟨Sorting.sortLe
                (if q.sortDir == some "desc" then fun a b => cmp b a
                 else cmp) (db.filter (Api.playersWhere q)), ?_, rfl⟩
            simp [Sorting.length_sortLe]
        · simp at h
      · simp at h
  · intro db q hnan
    simp only [Api.getPlayers]
    split
    · rfl
    · rename_i cmp hcmp
      split
      · rename_i p l hpage hlimit
        exfalso
        rcases hnan with hnan | hnan
        · rw [hpage] at hnan
          cases hnan
        · rw [hlimit] at hnan
          cases hnan
      · rfl

/-- Witness for the amended C8 theorem: a parsable limit "7", the empty
query on an empty table, and an unparsable limit "x". -/
theorem players_pagination_clamped_witness :
    (Api.jsParseInt "7" = Api.JsNum.num 7 ∧ "7" ≠ "" ∧
     Api.limitOf (some "7") = Api.JsNum.num (min 100 (max 1 7)) ∧
     Api.pageOf (some "7") = Api.JsNum.num (max 1 7)) ∧
    (Api.getPlayers ([] : List Api.ApiPlayer) Api.PlayersQuery.empty =
       Except.ok Fixtures.resW ∧
     (1 ≤ Fixtures.resW.page ∧ 1 ≤ Fixtures.resW.limit ∧
      Fixtures.resW.limit ≤ 100 ∧
      Fixtures.resW.players.length ≤ Fixtures.resW.limit.toNat ∧
      Fixtures.resW.players.length ≤ 100 ∧
      (∀ k : Nat, Fixtures.resW.total ≤ k * Fixtures.resW.limit.toNat ↔
        Fixtures.resW.totalPages ≤ k) ∧
      (∃ rows : List Api.ApiPlayer, rows.length = Fixtures.resW.total ∧
        Fixtures.resW.players =
          (rows.drop
            (((Fixtures.resW.page - 1) * Fixtures.resW.limit).toNat)).take
            Fixtures.resW.limit.toNat))) ∧
    Api.getPlayers ([] : List Api.ApiPlayer)
        { Api.PlayersQuery.empty with limit := some "x" } =
      Except.error () :=
  ⟨⟨rfl, by decide,
    (players_pagination_clamped.2.1 "7" 7 rfl (by decide)).1,
    (players_pagination_clamped.2.1 "7" 7 rfl (by decide)).2⟩,
   ⟨rfl, players_pagination_clamped.2.2.2.2.1 [] Api.PlayersQuery.empty
      Fixtures.resW rfl⟩,
   players_pagination_clamped.2.2.2.2.2 []
     { Api.PlayersQuery.empty with limit := some "x" } (Or.inr rfl)⟩

/-- C9: a `division` query parameter that is not one of D1, D2, D3 is
silently ignored by both `GET /api/players` and `GET /api/teams`: the
response equals the response of the identical request without the
parameter, so an invalid division never produces an error response. -/
theorem invalid_division_ignored (s : String)
    (hs : s ∉ Api.VALID_DIVISIONS) :
    (∀ (db : List Api.ApiPlayer) (q : Api.PlayersQuery),
      q.division = some s →
      Api.getPlayers db q =
        Api.getPlayers db { q with division := none }) ∧
    (∀ (db : List Api.ApiTeam) (q : Api.TeamsQuery),
      q.division = some s →
      Api.getTeams db q = Api.getTeams db { q with division := none }) := by
  have hcon : Api.VALID_DIVISIONS.contains s = false := by
    simpa using hs
  have hps : Api.parseDivision (some s) = none := by
    simp only [Api.parseDivision, hcon, Bool.and_false, if_neg]
    simp
  constructor
  · intro db q hq
    have hw : Api.playersWhere q =
        Api.playersWhere { q with division := none } := by
      funext p
      unfold Api.playersWhere
      rw [hq, hps]
      rfl
    unfold Api.getPlayers
    rw [hw]
  · intro db q hq
    have hw : Api.teamsWhere q =
        Api.teamsWhere { q with division := none } := by
      funext t
      unfold Api.teamsWhere
      rw [hq, hps]
      rfl
    unfold Api.getTeams
    rw [hw]

/-- Witness for C9 at the invalid division string "D4". -/
theorem invalid_division_ignored_witness :
    "D4" ∉ Api.VALID_DIVISIONS ∧
    Api.getPlayers [Fixtures.apPlayerA]
        { Api.PlayersQuery.empty with division := some "D4" } =
      Api.getPlayers [Fixtures.apPlayerA]
        { Api.PlayersQuery.empty with division := none } ∧
    Api.getTeams [Fixtures.apTeamA] ⟨some "D4", none, none⟩ =
      Api.getTeams [Fixtures.apTeamA] ⟨none, none, none⟩ :=
  ⟨by decide,
   (invalid_division_ignored "D4" (by decide)).1 [Fixtures.apPlayerA]
     { Api.PlayersQuery.empty with division := some "D4" } rfl,
   (invalid_division_ignored "D4" (by decide)).2 [Fixtures.apTeamA]
     ⟨some "D4", none, none⟩ rfl⟩

/-- C10: `POST /api/favorites` is atomic on error: no session gives 401,
a missing or non-numeric (or falsy) `playerId` gives 400, an
already-favorited `(user, player)` pair hits
`favorites_user_id_player_id_key` and gives 409 — in every non-201
outcome the store is unchanged — and a 201 outcome happens exactly for a
pair not yet favorited, appending that one favorite row. -/
theorem favorites_post_atomic :
    (∀ (body : Option Api.JsVal) (db : Api.FavoritesDb),
      Api.favoritesPost none body db = (401, db)) ∧
    (∀ (uid : Int) (body : Option Api.JsVal) (db : Api.FavoritesDb),
      Api.validPlayerId body = none →
      Api.favoritesPost (some uid) body db = (400, db)) ∧
    (∀ (uid pid : Int) (body : Option Api.JsVal) (db : Api.FavoritesDb),
      Api.validPlayerId body = some pid → (uid, pid) ∈ db.favorites →
      Api.favoritesPost (some uid) body db = (409, db)) ∧
    (∀ (session : Option Int) (body : Option Api.JsVal)
        (db db2 : Api.FavoritesDb) (st : Nat),
      Api.favoritesPost session body db = (st, db2) →
      (st = 201 →
        ∃ uid pid, session = some uid ∧
          Api.validPlayerId body = some pid ∧
          (uid, pid) ∉ db.favorites ∧
          db2.favorites = db.favorites ++ [(uid, pid)]) ∧
      (st ≠ 201 → db2 = db)) := by
  refine ⟨fun body db => rfl, ?_, ?_, ?_⟩
  · intro uid body db hv
    simp only [Api.favoritesPost, hv]
  · intro uid pid body db hv hmem
    simp only [Api.favoritesPost, hv]
    rw [if_pos hmem]
  · intro session body db db2 st h
    cases session with
    | none =>
        simp only [Api.favoritesPost] at h
        injection h with h1 h2
        subst h1
        subst h2
        exact ⟨fun hc => absurd hc (by decide), fun _ => rfl⟩
    | some uid =>
        simp only [Api.favoritesPost] at h
        split at h
        · injection h with h1 h2
          subst h1
          subst h2
          exact ⟨fun hc => absurd hc (by decide), fun _ => rfl⟩
        · rename_i pid hv
          split at h
          · injection h with h1 h2
            subst h1
            subst h2
            exact ⟨fun hc => absurd hc (by decide), fun _ => rfl⟩
          · rename_i hmem
            split at h
            · injection h with h1 h2
              subst h1
              subst h2
              exact ⟨fun _ => ⟨uid, pid, rfl, hv, hmem, rfl⟩,
                fun hne => absurd rfl hne⟩
            · injection h with h1 h2
              subst h1
              subst h2
              exact ⟨fun hc => absurd hc (by decide), fun _ => rfl⟩

/-- Witness for C10: user 1 and player 5, exercising the 401, 400, 409
and 201 outcomes. -/
theorem favorites_post_atomic_witness :
    Api.favoritesPost none (some (Api.JsVal.jnum (Api.JsNum.num 5)))
        Fixtures.favDb1 = (401, Fixtures.favDb1) ∧
    Api.favoritesPost (some 1) (some (Api.JsVal.jstr "5"))
        Fixtures.favDb1 = (400, Fixtures.favDb1) ∧
    Api.favoritesPost (some 1) (some (Api.JsVal.jnum (Api.JsNum.num 5)))
        Fixtures.favDb1 = (409, Fixtures.favDb1) ∧
    (∃ uid pid, (some (1 : Int)) = some uid ∧
      Api.validPlayerId (some (Api.JsVal.jnum (Api.JsNum.num 5))) =
        some pid ∧
      (uid, pid) ∉ Fixtures.favDb0.favorites ∧
      Fixtures.favDb1.favorites =
        Fixtures.favDb0.favorites ++ [(uid, pid)]) :=
  ⟨favorites_post_atomic.1 (some (Api.JsVal.jnum (Api.JsNum.num 5)))
     Fixtures.favDb1,
   favorites_post_atomic.2.1 1 (some (Api.JsVal.jstr "5"))
     Fixtures.favDb1 rfl,
   favorites_post_atomic.2.2.1 1 5
     (some (Api.JsVal.jnum (Api.JsNum.num 5))) Fixtures.favDb1 rfl
     (by decide),
   (favorites_post_atomic.2.2.2 (some 1)
     (some (Api.JsVal.jnum (Api.JsNum.num 5))) Fixtures.favDb0
     Fixtures.favDb1 201 rfl).1 rfl⟩
